import Mathlib

/-!
Verification development for the form-builder repository: a shallow
embedding of the form-definition / validation / submission-ingestion
pipeline (frontend `validateField` and `getFieldsForStep`, backend
`POST /submissions`, `DELETE /submissions/:id`, and the analytics
`fieldStats` computation), with theorems settling the specification
claims about them.
-/

namespace FormBuilder

/-! ## Data model

Transcribed from the TypeScript interfaces in `frontend/src/lib/api.ts`
(`FormField`, `FormSettings`, `Form`, `SubmissionField`, `Submission`);
the mongoose model files are not in the source tree, but their shapes are
pinned by these interfaces and by the route handlers that read them. -/

/-- The closed set of field kinds:
`'text' | 'email' | 'select' | 'checkbox' | 'radio' | 'textarea' | 'file'`. -/
inductive FieldType
  | text
  | email
  | select
  | checkbox
  | radio
  | textarea
  | file
deriving DecidableEq, Repr

/-- The optional `validation` sub-record of a `FormField`
(`minLength?`, `maxLength?`, `pattern?`, `min?`, `max?`). -/
structure FieldValidation where
  minLength : Option Nat := none
  maxLength : Option Nat := none
  pattern : Option String := none
  min : Option Int := none
  max : Option Int := none
deriving DecidableEq, Repr

/-- One configurable input unit of a form (`FormField` in `api.ts`). -/
structure FormField where
  id : String
  type : FieldType
  label : String
  placeholder : Option String := none
  required : Bool
  validation : Option FieldValidation := none
  options : Option (List String) := none
  fileTypes : Option (List String) := none
  maxFileSize : Option Nat := none
  order : Nat := 0
deriving DecidableEq, Repr

/-- Form lifecycle status: `'draft' | 'published'`. -/
inductive FormStatus
  | draft
  | published
deriving DecidableEq, Repr

/-- The `settings` record of a form (`FormSettings` in `api.ts`). -/
structure FormSettings where
  thankYouMessage : Option String := none
  submissionLimit : Option Nat := none
  allowMultipleSubmissions : Bool := true
  redirectUrl : Option String := none
  isMultiStep : Bool := false
  steps : Option (List String) := none
deriving DecidableEq, Repr

/-! ## JavaScript values

Submitted field values are dynamically typed JSON values.  The shapes that
occur in this pipeline are: `undefined`/`null` (absent), strings, numbers,
booleans, and arrays of option strings (checkbox selections).  `vNull`
stands for both `undefined` and `null`; every operation in the embedded
code treats the two alike (both are falsy, both stringify to the empty
string under express-validator, both are skipped by truthiness guards). -/

inductive Value
  | vNull
  | vStr (s : String)
  | vNum (n : Int)
  | vBool (b : Bool)
  | vArr (elts : List String)
deriving DecidableEq, Repr

/-- JavaScript truthiness of a value (`!value` is its negation):
`undefined`, `null`, `''`, `0`, `false` are falsy; arrays (even empty
ones) are truthy. -/
def Value.truthy : Value → Bool
  | .vNull => false
  | .vStr s => s ≠ ""
  | .vNum n => n ≠ 0
  | .vBool b => b
  | .vArr _ => true

/-- JavaScript `String(value)` coercion, as applied by `emailRegex.test`:
arrays join their elements with `","`; integers print in decimal. -/
def Value.jsString : Value → String
  | .vNull => "null"
  | .vStr s => s
  | .vNum n => toString n
  | .vBool b => if b then "true" else "false"
  | .vArr elts => String.intercalate "," elts

/-- JavaScript `value.length`: defined for strings (character count; the
embedding counts code points where JS counts UTF-16 units, which agree on
the inputs exercised here) and arrays, `undefined` otherwise.  A
comparison against `undefined` is false, which the callers rely on. -/
def Value.jsLength : Value → Option Nat
  | .vStr s => some s.length
  | .vArr elts => some elts.length
  | _ => none

/-! ## Client-side validation engine

`validateField` from `frontend/src/pages/PublicForm.tsx` (lines 56-100).
The function returns an error message, with `""` meaning the value passed
(the JS code returns `''` on success). -/

/-- Characters allowed by the `[^\s@]` class of the email regex:
anything that is neither whitespace nor `@`. -/
def isEmailChar (c : Char) : Bool :=
  !(c = ' ' || c = '\t' || c = '\n' || c = '\r' || c = '\x0b' || c = '\x0c') && c ≠ '@'

/-- Splits a character list at every occurrence of `c`; always returns at
least one (possibly empty) part, so a single-`c` input yields two parts. -/
def splitAtChar (c : Char) : List Char → List (List Char)
  | [] => [[]]
  | x :: xs =>
    match splitAtChar c xs with
    | [] => [[]]
    | p :: rest => if x = c then [] :: p :: rest else (x :: p) :: rest

/-- Whether `cs` has a `'.'` that is neither its first nor its last
character (the `[^\s@]+\.[^\s@]+` tail of the email regex, given that all
characters of `cs` are already known to be in `[^\s@]`). -/
def hasInteriorDot (cs : List Char) : Bool :=
  (List.range cs.length).any fun i =>
    decide (0 < i) && decide (i + 1 < cs.length) && cs.getD i ' ' = '.'

/-- `/^[^\s@]+@[^\s@]+\.[^\s@]+$/.test s`: exactly one `@`, a non-empty
local part, and a domain part containing an interior dot, with no
whitespace or further `@` anywhere. -/
def emailRegexTest (s : String) : Bool :=
  match splitAtChar '@' s.toList with
  | [lp, dp] =>
    lp ≠ [] && lp.all isEmailChar && dp.all isEmailChar && hasInteriorDot dp
  | _ => false

/-- `validateField(field, value)` from `PublicForm.tsx`: the presence rule
uses JS falsiness (`!value || value === ''`), then type-dispatched rules
run only when the value is truthy.  Returns `""` when the value passes. -/
def validateField (field : FormField) (value : Value) : String :=
  if field.required && !value.truthy then
    field.label ++ " is required"
  else if value.truthy then
    match field.type with
    | .email =>
      if emailRegexTest value.jsString then "" else field.label ++ " must be a valid email"
    | .text | .textarea =>
      match field.validation with
      | some rules =>
        if (match rules.minLength, value.jsLength with
            | some m, some len => decide (m ≠ 0) && decide (len < m)
            | _, _ => false) then
          field.label ++ " must be at least " ++ toString (rules.minLength.getD 0) ++ " characters"
        else if (match rules.maxLength, value.jsLength with
            | some m, some len => decide (m ≠ 0) && decide (m < len)
            | _, _ => false) then
          field.label ++ " must be less than " ++ toString (rules.maxLength.getD 0) ++ " characters"
        else ""
      | none => ""
    | .select | .radio =>
      match field.options with
      | some opts =>
        if (match value with | .vStr s => opts.contains s | _ => false) then ""
        else field.label ++ " has an invalid option selected"
      | none => ""
    | .checkbox =>
      match value with
      | .vArr elts =>
        match field.options with
        | some opts =>
          if elts.all fun v => opts.contains v then ""
          else field.label ++ " has an invalid option selected"
        | none => ""
      | _ => ""
    | .file => ""
  else ""

/-- `validateField(field, value)` from the `FormPreview` component: a
second, separately maintained copy of the rule set, transcribed from its
own source text (which is character-for-character the same rule logic as
the `PublicForm.tsx` copy). -/
def validateFieldPreview (field : FormField) (value : Value) : String :=
  if field.required && !value.truthy then
    field.label ++ " is required"
  else if value.truthy then
    match field.type with
    | .email =>
      if emailRegexTest value.jsString then "" else field.label ++ " must be a valid email"
    | .text | .textarea =>
      match field.validation with
      | some rules =>
        if (match rules.minLength, value.jsLength with
            | some m, some len => decide (m ≠ 0) && decide (len < m)
            | _, _ => false) then
          field.label ++ " must be at least " ++ toString (rules.minLength.getD 0) ++ " characters"
        else if (match rules.maxLength, value.jsLength with
            | some m, some len => decide (m ≠ 0) && decide (m < len)
            | _, _ => false) then
          field.label ++ " must be less than " ++ toString (rules.maxLength.getD 0) ++ " characters"
        else ""
      | none => ""
    | .select | .radio =>
      match field.options with
      | some opts =>
        if (match value with | .vStr s => opts.contains s | _ => false) then ""
        else field.label ++ " has an invalid option selected"
      | none => ""
    | .checkbox =>
      match value with
      | .vArr elts =>
        match field.options with
        | some opts =>
          if elts.all fun v => opts.contains v then ""
          else field.label ++ " has an invalid option selected"
        | none => ""
      | _ => ""
    | .file => ""
  else ""

/-! ## Multi-step partitioner

`getFieldsForStep` from `PublicForm.tsx` (lines 37-44); the `FormPreview`
component contains the identical function (part lines 19-26). -/

/-- `Math.ceil(a / b)` for naturals with `b > 0` (the callers guard
`steps.length > 0` through `isMultiStep`). -/
def jsCeilDiv (a b : Nat) : Nat := (a + b - 1) / b

/-- `getFieldsForStep(stepIndex)`: when not multi-step, all fields;
otherwise the slice `[stepIndex*fieldsPerStep, (stepIndex+1)*fieldsPerStep)`
of the field sequence, where `fieldsPerStep = Math.ceil(fields.length /
steps.length)`. -/
def getFieldsForStep (isMultiStep : Bool) (fields : List FormField)
    (steps : List String) (stepIndex : Nat) : List FormField :=
  if !isMultiStep then fields
  else
    let fieldsPerStep := jsCeilDiv fields.length steps.length
    (fields.drop (stepIndex * fieldsPerStep)).take fieldsPerStep

/-! ## Submission ingestion service

`POST /submissions` and `DELETE /submissions/:id` from
`backend/src/routes/forms.ts` (submissions router), together with the
express-validator request gate `validateSubmission`.  Persistence is
modelled as an explicit store of forms and submissions; the `$inc`
counter updates become pure functional updates of the owning form. -/

/-- One `{fieldId, value, fieldType}` entry of a submission body.  The
entries arrive as untyped JSON, so all three components are dynamic
values; `vNull` stands for an absent key. -/
structure SubmissionField where
  fieldId : Value
  value : Value
  fieldType : Value := Value.vNull
deriving DecidableEq, Repr

/-- A persisted submission record: the request's `fields` are stored
verbatim, with capture-time metadata (only `submittedAt` is modelled; IP,
user agent and the pending/processed status play no role in any claim). -/
structure Submission where
  id : String
  formId : String
  fields : List SubmissionField
  submittedAt : Nat
deriving DecidableEq, Repr

/-- The aggregate form document, as read and written by the route
handlers (`status`, `submissions` counter, `fields`, `settings`);
timestamps are not modelled.  The counter is an `Int` because Mongo's
`$inc: -1` can drive it below zero. -/
structure Form where
  id : String
  title : String
  fields : List FormField
  settings : FormSettings := {}
  status : FormStatus := .draft
  submissions : Int := 0
deriving DecidableEq, Repr

/-- The document store: all forms and all submission records. -/
structure Store where
  forms : List Form
  submissions : List Submission
deriving DecidableEq, Repr

/-- `Form.findById`. -/
def findForm (store : Store) (formId : String) : Option Form :=
  store.forms.find? fun f => f.id = formId

/-- The request body of `POST /submissions`: `{formId, fields}`. -/
structure SubmitRequest where
  formId : String
  fields : List SubmissionField
deriving DecidableEq, Repr

/-- One entry of express-validator's `errors.array()`, reduced to the
`path`/`msg` components the responses expose. -/
structure FieldError where
  path : String
  msg : String
deriving DecidableEq, Repr

/-- express-validator's internal `toString` as applied by `notEmpty()`:
`undefined`/`null` become `""`, an array is replaced by its first element
(an empty array stringifies to `""`), numbers and booleans print. -/
def Value.evString : Value → String
  | .vNull => ""
  | .vStr s => s
  | .vNum n => toString n
  | .vBool b => if b then "true" else "false"
  | .vArr [] => ""
  | .vArr (x :: _) => x

/-- `notEmpty()`: the stringified value is not the empty string. -/
def Value.evNotEmpty (v : Value) : Bool := v.evString ≠ ""

/-- `isMongoId()`: a 24-character hexadecimal string. -/
def isMongoId (s : String) : Bool :=
  s.length = 24 && s.toList.all fun c => c.isDigit || ('a' ≤ c && c ≤ 'f') || ('A' ≤ c && c ≤ 'F')

/-- Errors produced by the `body('fields.*.fieldId').notEmpty()` chain,
one per offending index, in index order. -/
def fieldIdErrors : Nat → List SubmissionField → List FieldError
  | _, [] => []
  | i, e :: rest =>
    (if e.fieldId.evNotEmpty then []
     else [⟨"fields[" ++ toString i ++ "].fieldId", "Field ID is required"⟩])
      ++ fieldIdErrors (i + 1) rest

/-- Errors produced by the `body('fields.*.value').notEmpty()` chain, one
per offending index, in index order. -/
def valueErrors : Nat → List SubmissionField → List FieldError
  | _, [] => []
  | i, e :: rest =>
    (if e.value.evNotEmpty then []
     else [⟨"fields[" ++ toString i ++ "].value", "Field value is required"⟩])
      ++ valueErrors (i + 1) rest

/-- `validateSubmission` middleware result: the `errors.array()` contents
in chain order (`formId` mongo-id check, then per-entry `fieldId` checks,
then per-entry `value` checks).  The `fields`-is-an-array check cannot
fail in the embedding because the request type makes `fields` a list. -/
def gateErrors (req : SubmitRequest) : List FieldError :=
  (if isMongoId req.formId then [] else [⟨"formId", "Valid form ID is required"⟩])
    ++ fieldIdErrors 0 req.fields ++ valueErrors 0 req.fields

/-- The possible responses of the `POST /submissions` handler. -/
inductive SubmitResult
  | badRequest (details : List FieldError)
  | notFound
  | notPublished
  | created (sub : Submission)
deriving DecidableEq, Repr

/-- The `POST /submissions` handler: express-validator gate first (400
`'Validation failed'` with details), then `Form.findById` (404), then the
publish-state check (400 `'Form is not published'`); on acceptance the
submission is saved with the request's `fields` verbatim and the owning
form's `submissions` counter is incremented by one via `$inc`.  `newId`
stands for the store-generated submission id and `now` for the server
timestamp. -/
def postSubmission (store : Store) (req : SubmitRequest) (now : Nat) (newId : String) :
    Store × SubmitResult :=
  if gateErrors req = [] then
    match findForm store req.formId with
    | none => (store, .notFound)
    | some form =>
      if form.status = .published then
        let sub : Submission :=
          { id := newId, formId := req.formId, fields := req.fields, submittedAt := now }
        ({ forms := store.forms.map fun f =>
             if f.id = req.formId then { f with submissions := f.submissions + 1 } else f,
           submissions := store.submissions ++ [sub] }, .created sub)
      else (store, .notPublished)
  else (store, .badRequest (gateErrors req))

/-- The `DELETE /submissions/:id` handler: `findByIdAndDelete` removes
the record with the given id (if any), then `$inc: -1` decrements the
owning form's counter.  Returns whether a record was deleted. -/
def deleteSubmission (store : Store) (subId : String) : Store × Bool :=
  match store.submissions.find? (fun s => s.id = subId) with
  | none => (store, false)
  | some sub =>
    ({ forms := store.forms.map fun f =>
         if f.id = sub.formId then { f with submissions := f.submissions - 1 } else f,
       submissions := store.submissions.eraseP fun s => s.id = subId }, true)

/-- The denormalized-counter invariant: every form's `submissions`
counter equals the number of submission records referencing it. -/
def Consistent (store : Store) : Prop :=
  ∀ f ∈ store.forms, f.submissions = (store.submissions.countP fun s => s.formId = f.id : Nat)

instance (store : Store) : Decidable (Consistent store) := by
  unfold Consistent; infer_instance

/-! ## Analytics aggregator

The `fieldStats` computation of `GET /analytics/form/:formId` from
`backend/src/routes/analytics.ts` (lines 109-143).  The JS code seeds a
`Map` keyed by the form's field ids, walks every period submission entry,
increments `count` whenever the entry's `fieldId` is one of the form's
field ids, and tallies the entry's value (arrays joined with `", "`) only
when the value is truthy; finally each field's tally is sorted by count
descending and truncated to five. -/

/-- The `Map.get(field.fieldId)` key match: a submission entry feeds the
stats bucket of the form field whose id it equals (`Map` keys compare
with SameValueZero, so only a string entry can match). -/
def entryMatches (fid : String) (e : SubmissionField) : Bool :=
  e.fieldId = Value.vStr fid

/-- `Array.isArray(field.value) ? field.value.join(', ') : field.value`:
the tally key, flattening arrays to a joined display string. -/
def flattenValue : Value → Value
  | .vArr elts => .vStr (String.intercalate ", " elts)
  | v => v

/-- All entries across the given submissions that feed the stats bucket
of field id `fid`, in submission-then-entry order. -/
def fieldEntries (fid : String) (subs : List Submission) : List SubmissionField :=
  subs.flatMap fun sub => sub.fields.filter (entryMatches fid)

/-- The tally keys for field id `fid`: the flattened values of the
matching entries whose value is truthy (the `if (field.value)` guard). -/
def fieldValueKeys (fid : String) (subs : List Submission) : List Value :=
  (fieldEntries fid subs).filterMap fun e =>
    if e.value.truthy then some (flattenValue e.value) else none

/-- `stats.values.set(value, (get(value) || 0) + 1)`: bump the count of
`v` in the tally, appending a fresh entry on first occurrence (JS `Map`
preserves insertion order). -/
def bumpKey : List (Value × Nat) → Value → List (Value × Nat)
  | [], v => [(v, 1)]
  | (k, c) :: rest, v =>
    if k = v then (k, c + 1) :: rest else (k, c) :: bumpKey rest v

/-- The full tally of a key list, in first-occurrence order. -/
def tally (keys : List Value) : List (Value × Nat) :=
  keys.foldl bumpKey []

/-- Insert one tally entry into a count-descending list, after any entry
with an equal count (matching a stable `sort((a, b) => b[1] - a[1])`). -/
def insertByCount (x : Value × Nat) : List (Value × Nat) → List (Value × Nat)
  | [] => [x]
  | y :: rest => if y.2 < x.2 then x :: y :: rest else y :: insertByCount x rest

/-- Stable sort of a tally by count descending. -/
def sortByCountDesc (l : List (Value × Nat)) : List (Value × Nat) :=
  l.foldl (fun acc x => insertByCount x acc) []

/-- One element of the `fieldStats` response array.  `responseRate` keeps
the exact rational the JS code computes before `toFixed(2)` formatting. -/
structure FieldStat where
  fieldId : String
  label : String
  type : FieldType
  responseCount : Nat
  responseRate : ℚ
  topValues : List (Value × Nat)
deriving DecidableEq, Repr

/-- The `fieldStats` array for a form over the period submissions `subs`:
one stat per form field (in field order; the builder generates distinct
field ids, under which the JS `Map` seeding is exactly this per-field
walk), with `responseCount` incremented for every matching entry,
`responseRate` computed against the lifetime `form.submissions` counter
(`'0'` when the counter is not positive), and the top five tallied
values. -/
def fieldStatsFor (form : Form) (subs : List Submission) : List FieldStat :=
  form.fields.map fun field =>
    { fieldId := field.id
      label := field.label
      type := field.type
      responseCount := (fieldEntries field.id subs).length
      responseRate :=
        if 0 < form.submissions then
          ((fieldEntries field.id subs).length : ℚ) / (form.submissions : ℚ) * 100
        else 0
      topValues := (sortByCountDesc (tally (fieldValueKeys field.id subs))).take 5 }

/-- The period filter of the analytics query:
`Submission.find({formId, 'metadata.submittedAt': {$gte: startDate}})`. -/
def periodSubmissions (store : Store) (formId : String) (startDate : Nat) : List Submission :=
  store.submissions.filter fun s => s.formId = formId && startDate ≤ s.submittedAt

/-! ## Form-builder field-list operations

`handleAddField`, `handleDeleteField`, `handleDuplicateField` and
`handleDragEnd` from `frontend/src/pages/FormBuilder.tsx`. -/

/-- `fieldType.charAt(0).toUpperCase() + fieldType.slice(1)`. -/
def capitalizeFirst (s : String) : String :=
  match s.toList with
  | [] => ""
  | c :: cs => String.mk (c.toUpper :: cs)

/-- The lowercase wire name of a field type. -/
def FieldType.name : FieldType → String
  | .text => "text"
  | .email => "email"
  | .select => "select"
  | .checkbox => "checkbox"
  | .radio => "radio"
  | .textarea => "textarea"
  | .file => "file"

/-- `handleAddField`: append a fresh field whose `order` is the previous
list length, with type-dependent default configuration. -/
def handleAddField (fields : List FormField) (newId : String) (ftype : FieldType) :
    List FormField :=
  fields ++
    [{ id := newId
       type := ftype
       label := "New " ++ capitalizeFirst ftype.name ++ " Field"
       placeholder := some ""
       required := false
       order := fields.length
       options :=
         if ftype = .select || ftype = .radio || ftype = .checkbox then some ["Option 1"]
         else none
       fileTypes := if ftype = .file then some ["image/jpeg", "image/png"] else none
       maxFileSize := if ftype = .file then some 5242880 else none }]

/-- `handleDeleteField`: filter the field out; the surviving fields keep
their old `order` values untouched. -/
def handleDeleteField (fields : List FormField) (fieldId : String) : List FormField :=
  fields.filter fun f => f.id ≠ fieldId

/-- `handleDuplicateField`: append a copy with a fresh id, a `" (Copy)"`
label suffix, and `order` set to the previous list length. -/
def handleDuplicateField (fields : List FormField) (field : FormField) (newId : String) :
    List FormField :=
  fields ++ [{ field with id := newId, label := field.label ++ " (Copy)", order := fields.length }]

/-- `fields.map((field, index) => ({...field, order: index}))`, the
re-derivation step of `handleDragEnd`, unrolled with an explicit running
index. -/
def reorderFrom (i : Nat) : List FormField → List FormField
  | [] => []
  | f :: rest => { f with order := i } :: reorderFrom (i + 1) rest

/-- JS `array.splice(n, 0, a)` insertion: insert before index `n`,
appending when `n` exceeds the length. -/
def spliceInsert (a : FormField) : Nat → List FormField → List FormField
  | _, [] => [a]
  | 0, l => a :: l
  | n + 1, x :: xs => x :: spliceInsert a n xs

/-- `handleDragEnd`: splice the field out of `source.index`, splice it
back in before `destination.index`, then re-derive every `order` from the
new positions.  The drag library only reports source indices of existing
draggables; an out-of-range source leaves the list unchanged (in JS the
spliced-out element would be `undefined`, a state the UI cannot reach). -/
def handleDragEnd (fields : List FormField) (src dst : Nat) : List FormField :=
  match fields.get? src with
  | none => fields
  | some moved => reorderFrom 0 (spliceInsert moved dst (fields.eraseIdx src))

/-- The §3 ordering invariant, as an executable check: `order` values are
contiguous from `i` and match each field's position. -/
def ordersFrom (i : Nat) : List FormField → Bool
  | [] => true
  | f :: rest => f.order = i && ordersFrom (i + 1) rest

/-- `order` values are contiguous from 0 and equal each field's position
in the sequence. -/
def ordersContiguous (fields : List FormField) : Bool :=
  ordersFrom 0 fields

/-! ## Concrete fixtures

Small concrete forms, stores and requests used by the counterexample and
witness theorems below. -/

/-- A required text field labelled "Name" (end-to-end scenario 1). -/
def nameField : FormField :=
  { id := "f1", type := .text, label := "Name", required := true }

/-- An optional select field labelled "Color" with options Red/Blue
(end-to-end scenario 2). -/
def colorField : FormField :=
  { id := "f2", type := .select, label := "Color", required := false,
    options := some ["Red", "Blue"] }

/-- A required checkbox field with options A/B. -/
def boxField : FormField :=
  { id := "f3", type := .checkbox, label := "Toppings", required := true,
    options := some ["A", "B"] }

/-- A published form holding the Name and Color fields. -/
def demoForm : Form :=
  { id := "aaaaaaaaaaaaaaaaaaaaaaaa", title := "Demo", fields := [nameField, colorField],
    status := .published, submissions := 0 }

/-- A store holding only `demoForm`, with no submissions yet. -/
def demoStore : Store := { forms := [demoForm], submissions := [] }

/-- A submission body answering only the Color field, with the
out-of-options value "Green" and no entry at all for the required Name
field. -/
def greenReq : SubmitRequest :=
  { formId := demoForm.id,
    fields := [⟨Value.vStr "f2", Value.vStr "Green", Value.vStr "select"⟩] }

/-- Scenario 1's submission body: the empty string for the Name field. -/
def emptyNameReq : SubmitRequest :=
  { formId := demoForm.id,
    fields := [⟨Value.vStr "f1", Value.vStr "", Value.vStr "text"⟩] }

/-- A published form with `submissionLimit = 1` whose counter already
stands at 1 (end-to-end scenario 4 after the first accepted submission). -/
def limitForm : Form :=
  { id := "bbbbbbbbbbbbbbbbbbbbbbbb", title := "Limited", fields := [colorField],
    settings := { submissionLimit := some 1 }, status := .published, submissions := 1 }

/-- The prior accepted submission backing `limitForm`'s counter. -/
def priorSub : Submission :=
  { id := "p1", formId := limitForm.id,
    fields := [⟨Value.vStr "f2", Value.vStr "Red", Value.vStr "select"⟩], submittedAt := 0 }

/-- The store after scenario 4's first accepted submission. -/
def limitStore : Store := { forms := [limitForm], submissions := [priorSub] }

/-- Scenario 4's second submission attempt. -/
def limitReq : SubmitRequest :=
  { formId := limitForm.id,
    fields := [⟨Value.vStr "f2", Value.vStr "Blue", Value.vStr "select"⟩] }

/-- A published single-field form whose lifetime counter is 1, for the
analytics counterexample. -/
def statForm : Form :=
  { id := "cccccccccccccccccccccccc", title := "Stats", fields :=
      [{ id := "f1", type := .text, label := "Age", required := false }],
    status := .published, submissions := 1 }

/-- A store holding `statForm` with no submissions yet. -/
def statStore : Store := { forms := [statForm], submissions := [] }

/-- A request carrying two entries for the same field `f1` (accepted by
the shape gate: both values stringify non-empty). -/
def statReq : SubmitRequest :=
  { formId := statForm.id,
    fields := [⟨Value.vStr "f1", Value.vStr "yes", Value.vStr "text"⟩,
               ⟨Value.vStr "f1", Value.vStr "no", Value.vStr "text"⟩] }

/-- The submission record `postSubmission` persists for `statReq`. -/
def statSub : Submission :=
  { id := "s9", formId := statForm.id, fields := statReq.fields, submittedAt := 5 }

/-- Two builder fields with consistent `order` values 0 and 1. -/
def builderField0 : FormField :=
  { id := "g0", type := .text, label := "First", required := false, order := 0 }

/-- See `builderField0`. -/
def builderField1 : FormField :=
  { id := "g1", type := .email, label := "Second", required := false, order := 1 }

/-! ## Claim C4 — the presence rule -/

/-- C4 counterexample: the presence check is the JS-falsiness test
`!value || value === ''`, so against the claim a required field rejects
the values `0` and `false` as absent, while an empty array (truthy in JS)
passes the presence rule. -/
theorem presence_rule_spec_cex :
    nameField.required = true ∧
    validateField nameField (Value.vNum 0) = "Name is required" ∧
    validateField nameField (Value.vBool false) = "Name is required" ∧
    boxField.required = true ∧
    validateField boxField (Value.vArr []) = "" := by decide

/-- C4 (amended): for a required field, `undefined`/`null`, the empty
string, `0` and `false` — all JS-falsy values — fail the presence rule
with "{label} is required", while an empty array is truthy and is not
treated as absent: validation proceeds exactly as it would for the same
field without the required flag. -/
theorem presence_rule_uses_js_falsiness (field : FormField) (hr : field.required = true) :
    validateField field Value.vNull = field.label ++ " is required" ∧
    validateField field (Value.vStr "") = field.label ++ " is required" ∧
    validateField field (Value.vNum 0) = field.label ++ " is required" ∧
    validateField field (Value.vBool false) = field.label ++ " is required" ∧
    validateField field (Value.vArr [])
      = validateField { field with required := false } (Value.vArr []) := by
  refine ⟨?_, ?_, ?_, ?_, ?_⟩ <;> simp [validateField, Value.truthy, hr]

/-- C4 witness: the amended statement evaluated at the concrete required
Name field. -/
theorem presence_rule_uses_js_falsiness_witness :
    nameField.required = true ∧
    (validateField nameField Value.vNull = nameField.label ++ " is required" ∧
     validateField nameField (Value.vStr "") = nameField.label ++ " is required" ∧
     validateField nameField (Value.vNum 0) = nameField.label ++ " is required" ∧
     validateField nameField (Value.vBool false) = nameField.label ++ " is required" ∧
     validateField nameField (Value.vArr [])
       = validateField { nameField with required := false } (Value.vArr [])) :=
  ⟨by decide, presence_rule_uses_js_falsiness nameField (by decide)⟩

/-! ## Claim C5 — the checkbox rule -/

/-- C5 counterexample: a non-array value submitted for a checkbox field
is not rejected — the checkbox branch only inspects arrays — while an
array with a single out-of-options element is rejected. -/
theorem checkbox_non_array_accepted_cex :
    boxField.type = FieldType.checkbox ∧
    boxField.options = some ["A", "B"] ∧
    validateField boxField (Value.vStr "junk") = "" ∧
    validateField boxField (Value.vArr ["A", "junk"])
      = "Toppings has an invalid option selected" := by decide

/-- C5 (amended): for a checkbox field with options, an array value is
accepted exactly when every element is a member of the options (a single
out-of-options element rejects with "{label} has an invalid option
selected", however many others are valid); a non-array truthy value is
never rejected by the checkbox rule. -/
theorem checkbox_rule_arrays_only (field : FormField) (opts : List String)
    (ht : field.type = FieldType.checkbox) (ho : field.options = some opts) :
    (∀ elts : List String,
      validateField field (Value.vArr elts)
        = if elts.all (fun x => opts.contains x) then ""
          else field.label ++ " has an invalid option selected") ∧
    ∀ v : Value, v.truthy = true → (∀ l, v ≠ Value.vArr l) → validateField field v = "" := by
  constructor
  · intro elts
    simp [validateField, Value.truthy, ht, ho]
  · intro v hv hna
    cases v with
    | vNull => simp [Value.truthy] at hv
    | vStr s => simp [validateField, ht, hv]
    | vNum n => simp [validateField, ht, hv]
    | vBool b => simp [validateField, ht, hv]
    | vArr l => exact absurd rfl (hna l)

/-- C5 witness: the amended statement evaluated at the concrete checkbox
field, a mixed array and a non-array string. -/
theorem checkbox_rule_arrays_only_witness :
    boxField.type = FieldType.checkbox ∧ boxField.options = some ["A", "B"] ∧
    (validateField boxField (Value.vArr ["A", "junk"])
        = if (["A", "junk"] : List String).all (fun x => ["A", "B"].contains x) then ""
          else boxField.label ++ " has an invalid option selected") ∧
    validateField boxField (Value.vStr "junk") = "" :=
  ⟨by decide, by decide,
    (checkbox_rule_arrays_only boxField ["A", "B"] (by decide) (by decide)).1 ["A", "junk"],
    (checkbox_rule_arrays_only boxField ["A", "B"] (by decide) (by decide)).2
      (Value.vStr "junk") (by decide) (by intro l h; cases h)⟩

/-! ## Claim C2 — one shared validation implementation -/

/-- C2 counterexample: the preview path rejects the out-of-options value
"Green" for the Color field, yet the authoritative server-side ingestion
path accepts a submission carrying exactly that (field, value) pair — the
two paths do not produce equal decisions, because the server runs no §4.2
validation at all. -/
theorem client_server_validation_diverges_cex :
    validateFieldPreview colorField (Value.vStr "Green")
      = "Color has an invalid option selected" ∧
    (postSubmission demoStore greenReq 1 "s2").2
      = SubmitResult.created
          { id := "s2", formId := demoForm.id, fields := greenReq.fields, submittedAt := 1 } := by
  decide

/-- C2 (amended): the two client-side copies of the rule set — in
`PublicForm.tsx` and in the `FormPreview` component — are independently
maintained but extensionally equal, so the builder-preview and the
public-form pre-submission paths agree on every decision; the server-side
ingestion path, however, invokes no implementation of the §4.2 rules, so
client and server decisions diverge. -/
theorem validate_field_copies_agree :
    ∀ (field : FormField) (value : Value),
      validateFieldPreview field value = validateField field value :=
  fun _ _ => rfl

/-! ## Claim C9 — order re-derivation in the builder -/

/-- C9 counterexample: deleting the first of two fields with consistent
orders [0, 1] merely filters the list; the surviving field keeps
`order = 1` at position 0, so the contiguity invariant is broken. -/
theorem order_invariant_delete_cex :
    ordersContiguous [builderField0, builderField1] = true ∧
    handleDeleteField [builderField0, builderField1] "g0" = [builderField1] ∧
    ordersContiguous (handleDeleteField [builderField0, builderField1] "g0") = false := by
  decide

/-- Re-deriving orders from running index `i` yields a list whose orders
are contiguous from `i`. -/
theorem ordersFrom_reorderFrom (l : List FormField) :
    ∀ i, ordersFrom i (reorderFrom i l) = true := by
  induction l with
  | nil => intro i; rfl
  | cons f rest ih => intro i; simp [reorderFrom, ordersFrom, ih (i + 1)]

/-- Appending a field whose order equals the list length preserves the
contiguity invariant. -/
theorem ordersFrom_append_singleton (l : List FormField) (x : FormField) :
    ∀ i, ordersFrom i l = true → x.order = i + l.length → ordersFrom i (l ++ [x]) = true := by
  induction l with
  | nil => intro i _ hx; simp [ordersFrom, hx]
  | cons f rest ih =>
      intro i h hx
      simp only [ordersFrom, Bool.and_eq_true, decide_eq_true_eq] at h
      simp only [List.cons_append, ordersFrom, Bool.and_eq_true, decide_eq_true_eq]
      refine ⟨h.1, ih (i + 1) h.2 ?_⟩
      simp only [List.length_cons] at hx
      omega

/-- C9 (amended): drag-reorder re-derives the full ordering, so after
`handleDragEnd` the order values are contiguous from 0 and match
positions; insertion and duplication append a field with order equal to
the previous length, preserving the invariant whenever it already holds;
deletion, by contrast, does not re-derive the ordering and can break it. -/
theorem order_rederived_except_delete (fields : List FormField) (src dst : Nat)
    (newId : String) (ftype : FieldType) (field : FormField)
    (hs : src < fields.length) (hc : ordersContiguous fields = true) :
    ordersContiguous (handleDragEnd fields src dst) = true ∧
    ordersContiguous (handleAddField fields newId ftype) = true ∧
    ordersContiguous (handleDuplicateField fields field newId) = true := by
  refine ⟨?_, ?_, ?_⟩
  · have hg : fields[src]? = some fields[src] := List.getElem?_eq_getElem hs
    simp [handleDragEnd, hg, ordersContiguous, ordersFrom_reorderFrom]
  · exact ordersFrom_append_singleton fields _ 0 hc (by simp [handleAddField])
  · exact ordersFrom_append_singleton fields _ 0 hc (by simp [handleDuplicateField])

/-- C9 witness: the amended statement evaluated on the concrete two-field
list, dragging the second field to the front. -/
theorem order_rederived_except_delete_witness :
    (1 < ([builderField0, builderField1] : List FormField).length ∧
     ordersContiguous [builderField0, builderField1] = true) ∧
    ordersContiguous (handleDragEnd [builderField0, builderField1] 1 0) = true :=
  ⟨⟨by decide, by decide⟩,
    (order_rederived_except_delete [builderField0, builderField1] 1 0 "x" FieldType.text
      builderField0 (by decide) (by decide)).1⟩

/-! ## Claim C1 — server-side rule validation on ingestion -/

/-- C1 counterexample: a submission against the published demo form whose
Color value fails the §4.2 option rule, and which omits the required Name
field entirely, is nevertheless accepted and persisted — the ingestion
handler never runs the rule set. -/
theorem ingestion_skips_rule_validation_cex :
    validateField colorField (Value.vStr "Green") = "Color has an invalid option selected" ∧
    validateField nameField Value.vNull = "Name is required" ∧
    (postSubmission demoStore greenReq 0 "s1").2
      = SubmitResult.created
          { id := "s1", formId := demoForm.id, fields := greenReq.fields, submittedAt := 0 } ∧
    (postSubmission demoStore greenReq 0 "s1").1.submissions
      = [{ id := "s1", formId := demoForm.id, fields := greenReq.fields, submittedAt := 0 }] := by
  decide

/-- C1 (amended): the ingestion pipeline runs no §4.2 validation — every
request that passes the express-validator shape gate against a found,
published form is accepted with its fields stored verbatim, regardless of
any §4.2 rule failure or missing required field; submitting an
empty-string value is rejected by the shape gate with a 400 carrying
exactly one detail for that entry, before the form is ever looked up. -/
theorem ingestion_skips_rule_validation (store : Store) (req : SubmitRequest) (now : Nat)
    (newId : String) (form : Form)
    (hg : gateErrors req = []) (hf : findForm store req.formId = some form)
    (hp : form.status = FormStatus.published) :
    ((postSubmission store req now newId).2
      = SubmitResult.created
          { id := newId, formId := req.formId, fields := req.fields, submittedAt := now }) ∧
    ∀ (store2 : Store) (req2 : SubmitRequest) (now2 : Nat) (newId2 : String)
      (e : SubmissionField),
      req2.fields = [e] → e.value = Value.vStr "" → isMongoId req2.formId = true →
      e.fieldId.evNotEmpty = true →
      postSubmission store2 req2 now2 newId2
        = (store2, SubmitResult.badRequest [⟨"fields[0].value", "Field value is required"⟩]) := by
  constructor
  · simp [postSubmission, hg, hf, hp]
  · intro store2 req2 now2 newId2 e hfs hv hm hid
    have hveq : Value.evNotEmpty (Value.vStr "") = false := by decide
    have hpath : ("fields[" ++ toString 0 ++ "].value" : String) = "fields[0].value" := rfl
    have hge : gateErrors req2 = [⟨"fields[0].value", "Field value is required"⟩] := by
      simp [gateErrors, hm, hfs, fieldIdErrors, valueErrors, hid, hv, hveq, hpath]
    simp [postSubmission, hge]

/-- C1 witness: the amended statement evaluated at the published demo
form, the out-of-options request, and scenario 1's empty-string request. -/
theorem ingestion_skips_rule_validation_witness :
    (gateErrors greenReq = [] ∧ findForm demoStore greenReq.formId = some demoForm ∧
     demoForm.status = FormStatus.published) ∧
    (postSubmission demoStore greenReq 0 "s1").2
      = SubmitResult.created
          { id := "s1", formId := greenReq.formId, fields := greenReq.fields, submittedAt := 0 } ∧
    postSubmission demoStore emptyNameReq 0 "s1"
      = (demoStore, SubmitResult.badRequest [⟨"fields[0].value", "Field value is required"⟩]) :=
  ⟨⟨by decide, by decide, by decide⟩,
    (ingestion_skips_rule_validation demoStore greenReq 0 "s1" demoForm
      (by decide) (by decide) (by decide)).1,
    (ingestion_skips_rule_validation demoStore greenReq 0 "s1" demoForm
      (by decide) (by decide) (by decide)).2 demoStore emptyNameReq 0 "s1"
      ⟨Value.vStr "f1", Value.vStr "", Value.vStr "text"⟩ rfl rfl (by decide) (by decide)⟩

/-! ## Claim C3 — the submission limit -/

/-- C3 counterexample: against a published form with `submissionLimit = 1`
whose counter already stands at 1, a second submission attempt is
accepted — it creates a Submission record and drives the counter to 2 —
instead of failing with `LimitReached`. -/
theorem submission_limit_not_enforced_cex :
    limitForm.settings.submissionLimit = some 1 ∧
    limitForm.submissions = 1 ∧
    (postSubmission limitStore limitReq 2 "s3").2
      = SubmitResult.created
          { id := "s3", formId := limitForm.id, fields := limitReq.fields, submittedAt := 2 } ∧
    (postSubmission limitStore limitReq 2 "s3").1.forms
      = [{ limitForm with submissions := 2 }] ∧
    (postSubmission limitStore limitReq 2 "s3").1.submissions.length = 2 := by
  decide

/-- C3 (amended): `submissionLimit` is never consulted by the ingestion
pipeline — a gate-passing submission against a found, published form
whose counter already meets or exceeds the limit is still accepted,
persisted, and counted (the limit exists only as a settings field). -/
theorem submission_limit_not_enforced (store : Store) (req : SubmitRequest) (now : Nat)
    (newId : String) (form : Form) (limit : Nat)
    (hg : gateErrors req = []) (hf : findForm store req.formId = some form)
    (hp : form.status = FormStatus.published)
    (hl : form.settings.submissionLimit = some limit)
    (hge : (limit : Int) ≤ form.submissions) :
    (postSubmission store req now newId).2
      = SubmitResult.created
          { id := newId, formId := req.formId, fields := req.fields, submittedAt := now } ∧
    (postSubmission store req now newId).1.submissions
      = store.submissions
          ++ [{ id := newId, formId := req.formId, fields := req.fields, submittedAt := now }] ∧
    (postSubmission store req now newId).1.forms
      = store.forms.map fun f =>
          if f.id = req.formId then { f with submissions := f.submissions + 1 } else f := by
  refine ⟨?_, ?_, ?_⟩ <;> simp [postSubmission, hg, hf, hp]

/-- C3 witness: the amended statement evaluated at scenario 4's store
(limit 1, counter 1) and second request. -/
theorem submission_limit_not_enforced_witness :
    (gateErrors limitReq = [] ∧ findForm limitStore limitReq.formId = some limitForm ∧
     limitForm.status = FormStatus.published ∧
     limitForm.settings.submissionLimit = some 1 ∧ (1 : Int) ≤ limitForm.submissions) ∧
    (postSubmission limitStore limitReq 2 "s3").2
      = SubmitResult.created
          { id := "s3", formId := limitReq.formId, fields := limitReq.fields, submittedAt := 2 } :=
  ⟨⟨by decide, by decide, by decide, by decide, by decide⟩,
    (submission_limit_not_enforced limitStore limitReq 2 "s3" limitForm 1
      (by decide) (by decide) (by decide) (by decide) (by decide)).1⟩

/-! ## Claim C10 — the shape gate rejects before lookup -/

/-- A member with an empty (stringified) value makes the value-error
chain non-empty. -/
theorem valueErrors_ne_nil_of_mem (e : SubmissionField) :
    ∀ (l : List SubmissionField) (i : Nat),
      e ∈ l → e.value.evNotEmpty = false → valueErrors i l ≠ [] := by
  intro l
  induction l with
  | nil => intro i h; cases h
  | cons x rest ih =>
      intro i hmem hbad
      simp only [valueErrors]
      rcases List.mem_cons.mp hmem with hx | hx
      · subst hx; simp [hbad]
      · intro hcontra
        rcases List.append_eq_nil.mp hcontra with ⟨_, h2⟩
        exact ih (i + 1) hx hbad h2

/-- A member with an empty (stringified) field id makes the
field-id-error chain non-empty. -/
theorem fieldIdErrors_ne_nil_of_mem (e : SubmissionField) :
    ∀ (l : List SubmissionField) (i : Nat),
      e ∈ l → e.fieldId.evNotEmpty = false → fieldIdErrors i l ≠ [] := by
  intro l
  induction l with
  | nil => intro i h; cases h
  | cons x rest ih =>
      intro i hmem hbad
      simp only [fieldIdErrors]
      rcases List.mem_cons.mp hmem with hx | hx
      · subst hx; simp [hbad]
      · intro hcontra
        rcases List.append_eq_nil.mp hcontra with ⟨_, h2⟩
        exact ih (i + 1) hx hbad h2

/-- C10: a submission request in which some entry's value is empty (the
empty string, or missing) or whose field id is missing or empty is
rejected by the express-validator shape gate with a 400 'Validation
failed' response — for every store alike, so before the form is looked up
and independent of any field definition — leaving the store unchanged, so
such a submission can never be accepted or reach persistence. -/
theorem shape_gate_rejects_empty_values (req : SubmitRequest)
    (h : ∃ e ∈ req.fields,
      e.value = Value.vNull ∨ e.value = Value.vStr "" ∨
      e.fieldId = Value.vNull ∨ e.fieldId = Value.vStr "") :
    gateErrors req ≠ [] ∧
    ∀ (store : Store) (now : Nat) (newId : String),
      postSubmission store req now newId = (store, SubmitResult.badRequest (gateErrors req)) ∧
      ∀ sub, (postSubmission store req now newId).2 ≠ SubmitResult.created sub := by
  have hne : gateErrors req ≠ [] := by
    rcases h with ⟨e, hmem, hbad⟩
    unfold gateErrors
    intro hcontra
    rcases List.append_eq_nil.mp hcontra with ⟨h1, h3⟩
    rcases List.append_eq_nil.mp h1 with ⟨_, h2⟩
    rcases hbad with hv | hv | hi | hi
    · exact valueErrors_ne_nil_of_mem e req.fields 0 hmem (by simp [Value.evNotEmpty, hv, Value.evString]) h3
    · exact valueErrors_ne_nil_of_mem e req.fields 0 hmem (by simp [Value.evNotEmpty, hv, Value.evString]) h3
    · exact fieldIdErrors_ne_nil_of_mem e req.fields 0 hmem (by simp [Value.evNotEmpty, hi, Value.evString]) h2
    · exact fieldIdErrors_ne_nil_of_mem e req.fields 0 hmem (by simp [Value.evNotEmpty, hi, Value.evString]) h2
  refine ⟨hne, fun store now newId => ?_⟩
  have hpost : postSubmission store req now newId
      = (store, SubmitResult.badRequest (gateErrors req)) := by
    simp [postSubmission, hne]
  exact ⟨hpost, fun sub => by simp [hpost]⟩

/-- C10 witness: the gate rejection evaluated at scenario 1's
empty-string request against the demo store. -/
theorem shape_gate_rejects_empty_values_witness :
    (∃ e ∈ emptyNameReq.fields,
      e.value = Value.vNull ∨ e.value = Value.vStr "" ∨
      e.fieldId = Value.vNull ∨ e.fieldId = Value.vStr "") ∧
    postSubmission demoStore emptyNameReq 0 "s1"
      = (demoStore, SubmitResult.badRequest (gateErrors emptyNameReq)) :=
  ⟨by decide,
    ((shape_gate_rejects_empty_values emptyNameReq (by decide)).2 demoStore 0 "s1").1⟩

/-! ## Claim C6 — the multi-step partitioner -/

/-- Consecutive `k`-chunks taken at offsets `0, k, 2k, …, (n-1)k`
concatenate back to the whole list as soon as `n * k` covers its length. -/
theorem chunks_cover (k : Nat) :
    ∀ (n : Nat) (l : List FormField), l.length ≤ n * k →
      ((List.range n).flatMap fun i => (l.drop (i * k)).take k) = l := by
  intro n
  induction n with
  | zero =>
      intro l hl
      have hnil : l = [] := List.eq_nil_of_length_eq_zero (Nat.le_zero.mp (by simpa using hl))
      simp [hnil]
  | succ n ih =>
      intro l hl
      rw [List.range_succ_eq_map]
      have hdrop : ∀ i : Nat, l.drop ((i + 1) * k) = (l.drop k).drop (i * k) := by
        intro i
        rw [List.drop_drop]
        congr 1
        ring
      calc ((0 :: (List.range n).map Nat.succ).flatMap fun i => (l.drop (i * k)).take k)
          = (l.take k)
              ++ ((List.range n).flatMap fun i => ((l.drop k).drop (i * k)).take k) := by
            simp only [List.flatMap_cons, Nat.zero_mul, List.drop_zero, List.flatMap_map,
              Function.comp, Nat.succ_eq_add_one, hdrop]
        _ = l.take k ++ l.drop k := by
            have hmul : (n + 1) * k = n * k + k := by ring
            rw [ih (l.drop k) (by simp only [List.length_drop]; omega)]
        _ = l := List.take_append_drop k l

/-- `len ≤ n * ⌈len / n⌉` for positive `n`. -/
theorem length_le_mul_jsCeilDiv (len n : Nat) (hn : 0 < n) : len ≤ n * jsCeilDiv len n := by
  unfold jsCeilDiv
  have h1 := Nat.div_add_mod (len + n - 1) n
  have h2 := Nat.mod_lt (len + n - 1) hn
  omega

/-- C6: for a non-empty field list and non-empty step-name list, the
multi-step partitioner gives step `i` the half-open slice
`[i*fieldsPerStep, (i+1)*fieldsPerStep)` of the field sequence (clipped to
bounds), with `fieldsPerStep = ⌈fields.length / steps.length⌉`; the steps
concatenate back to the exact field sequence — no duplication, no loss,
and determinism since the partitioner is a pure function of its inputs —
and 7 fields over 3 steps give step sizes `[3, 3, 1]`. -/
theorem multi_step_partition_correct (fields : List FormField) (steps : List String)
    (hs : steps ≠ []) (hf : fields ≠ []) :
    ((List.range steps.length).flatMap fun i => getFieldsForStep true fields steps i)
       = fields ∧
    (∀ i j, j < jsCeilDiv fields.length steps.length →
      (getFieldsForStep true fields steps i)[j]?
        = fields[i * jsCeilDiv fields.length steps.length + j]?) ∧
    (fields.length = 7 → steps.length = 3 →
      (List.range 3).map (fun i => (getFieldsForStep true fields steps i).length)
        = [3, 3, 1]) := by
  have hn : 0 < steps.length := List.length_pos.mpr hs
  refine ⟨?_, ?_, ?_⟩
  · have := chunks_cover (jsCeilDiv fields.length steps.length) steps.length fields
      (length_le_mul_jsCeilDiv fields.length steps.length hn)
    simpa [getFieldsForStep] using this
  · intro i j hj
    simp only [getFieldsForStep, Bool.not_true]
    rw [if_neg Bool.false_ne_true, List.getElem?_take_of_lt hj, List.getElem?_drop]
  · intro h7 h3
    have hk : jsCeilDiv 7 3 = 3 := by decide
    simp only [getFieldsForStep, List.range_succ, List.range_zero, List.map_append,
      List.map_cons, List.map_nil, List.nil_append, Bool.not_true,
      if_neg Bool.false_ne_true, List.length_take, List.length_drop, h7, h3, hk]
    decide

/-- Seven identical text fields, for the partition witness. -/
def sevenFields : List FormField := List.replicate 7 nameField

/-- C6 witness: the partition statement evaluated at seven fields over
the three steps A, B, C. -/
theorem multi_step_partition_correct_witness :
    (sevenFields ≠ [] ∧ (["A", "B", "C"] : List String) ≠ []) ∧
    ((List.range (["A", "B", "C"] : List String).length).flatMap fun i =>
        getFieldsForStep true sevenFields ["A", "B", "C"] i) = sevenFields ∧
    (List.range 3).map (fun i => (getFieldsForStep true sevenFields ["A", "B", "C"] i).length)
      = [3, 3, 1] :=
  ⟨⟨by decide, by decide⟩,
    (multi_step_partition_correct sevenFields ["A", "B", "C"] (by decide) (by decide)).1,
    (multi_step_partition_correct sevenFields ["A", "B", "C"] (by decide) (by decide)).2.2
      (by decide) (by decide)⟩

/-! ## Claim C7 — counter consistency -/

/-- Erasing the first match found by `find?` lowers every `countP` by the
matched element's contribution. -/
theorem countP_eraseP_of_find (p q : Submission → Bool) :
    ∀ (l : List Submission) (a : Submission), l.find? p = some a →
      (l.eraseP p).countP q + (if q a then 1 else 0) = l.countP q := by
  intro l
  induction l with
  | nil => intro a h; simp at h
  | cons x rest ih =>
      intro a h
      by_cases hx : p x
      · have hax : a = x := by
          rw [List.find?_cons_of_pos _ hx] at h
          exact (Option.some_inj.mp h).symm
        subst hax
        rw [List.eraseP_cons_of_pos hx, List.countP_cons]
      · rw [List.find?_cons_of_neg _ hx] at h
        rw [List.eraseP_cons_of_neg hx, List.countP_cons, List.countP_cons]
        have := ih a h
        omega

/-- Appending one submission record while incrementing the counter of
every form whose id is its `formId` preserves the counter invariant. -/
theorem consistent_append_inc (forms : List Form) (subs : List Submission) (sub : Submission)
    (hc : Consistent ⟨forms, subs⟩) :
    Consistent ⟨forms.map fun f =>
        if f.id = sub.formId then { f with submissions := f.submissions + 1 } else f,
      subs ++ [sub]⟩ := by
  intro f' hf'
  rcases List.mem_map.mp hf' with ⟨f, hfmem, hfeq⟩
  have hcf := hc f hfmem
  subst hfeq
  dsimp only at hcf
  by_cases hid : f.id = sub.formId
  · rw [if_pos hid]
    show f.submissions + 1 = ((subs ++ [sub]).countP fun s => s.formId = f.id : Nat)
    rw [List.countP_append]
    have hone : ([sub].countP fun s => s.formId = f.id) = 1 := by simp [hid]
    rw [hone, hcf]
    push_cast
    ring
  · rw [if_neg hid]
    show f.submissions = ((subs ++ [sub]).countP fun s => s.formId = f.id : Nat)
    rw [List.countP_append]
    have hzero : ([sub].countP fun s => s.formId = f.id) = 0 := by
      have hne : ¬(sub.formId = f.id) := fun h => hid h.symm
      simp [hne]
    rw [hzero, hcf]
    norm_num

/-- Erasing the record found by `find?` while decrementing the counter of
every form whose id is its `formId` preserves the counter invariant. -/
theorem consistent_erase_dec (forms : List Form) (subs : List Submission) (sub : Submission)
    (subId : String) (hfind : subs.find? (fun s => s.id = subId) = some sub)
    (hc : Consistent ⟨forms, subs⟩) :
    Consistent ⟨forms.map fun f =>
        if f.id = sub.formId then { f with submissions := f.submissions - 1 } else f,
      subs.eraseP fun s => s.id = subId⟩ := by
  intro f' hf'
  rcases List.mem_map.mp hf' with ⟨f, hfmem, hfeq⟩
  have hcf := hc f hfmem
  have hcount := countP_eraseP_of_find (fun s => s.id = subId)
    (fun s => s.formId = f.id) subs sub hfind
  subst hfeq
  dsimp only at hcf
  by_cases hid : f.id = sub.formId
  · rw [if_pos hid]
    show f.submissions - 1 = ((subs.eraseP fun s => s.id = subId).countP
      fun s => s.formId = f.id : Nat)
    have hq : (decide (sub.formId = f.id)) = true := by simp [hid]
    simp only [hq, if_true] at hcount
    omega
  · rw [if_neg hid]
    show f.submissions = ((subs.eraseP fun s => s.id = subId).countP
      fun s => s.formId = f.id : Nat)
    have hq : (decide (sub.formId = f.id)) = false := by
      simp
      exact fun h => hid h.symm
    simp only [hq, Bool.false_eq_true, if_false] at hcount
    omega

/-- C7: the `submissions` counter stays consistent with the true record
count under every operation — a record is only created by the ingestion
pipeline against a found, published form (appending exactly one record
and incrementing exactly that form's counter by one); every failed
attempt leaves the store unchanged; deletion removes exactly one record
and decrements its owner's counter by one; and both operations preserve
the counter invariant. -/
theorem submissions_counter_consistent (store : Store) (req : SubmitRequest) (now : Nat)
    (newId subId : String) (hc : Consistent store) :
    ((∀ sub, (postSubmission store req now newId).2 ≠ SubmitResult.created sub) →
      (postSubmission store req now newId).1 = store) ∧
    (∀ sub, (postSubmission store req now newId).2 = SubmitResult.created sub →
      ∃ form, findForm store req.formId = some form ∧ form.status = FormStatus.published ∧
        sub.formId = req.formId ∧
        (postSubmission store req now newId).1.submissions = store.submissions ++ [sub] ∧
        (postSubmission store req now newId).1.forms
          = store.forms.map fun f =>
              if f.id = req.formId then { f with submissions := f.submissions + 1 } else f) ∧
    Consistent (postSubmission store req now newId).1 ∧
    Consistent (deleteSubmission store subId).1 ∧
    ∀ sub, store.submissions.find? (fun s => s.id = subId) = some sub →
      (deleteSubmission store subId).1.forms
        = store.forms.map (fun f =>
            if f.id = sub.formId then { f with submissions := f.submissions - 1 } else f) ∧
      (deleteSubmission store subId).1.submissions.length + 1 = store.submissions.length := by
  have hdel : Consistent (deleteSubmission store subId).1 := by
    cases hfind : store.submissions.find? (fun s => s.id = subId) with
    | none => simpa [deleteSubmission, hfind] using hc
    | some sub =>
        have := consistent_erase_dec store.forms store.submissions sub subId hfind hc
        simpa [deleteSubmission, hfind] using this
  by_cases hg : gateErrors req = []
  · cases hfind : findForm store req.formId with
    | none =>
        have hpost : postSubmission store req now newId = (store, SubmitResult.notFound) := by
          simp [postSubmission, hg, hfind]
        refine ⟨fun _ => by rw [hpost], fun sub hsub => ?_, by rw [hpost]; exact hc, hdel, ?_⟩
        · rw [hpost] at hsub; cases hsub
        · intro sub hfind2
          refine ⟨by simp [deleteSubmission, hfind2], ?_⟩
          have hlen := countP_eraseP_of_find (fun s => s.id = subId) (fun _ => true)
            store.submissions sub hfind2
          simp only [List.countP_true, if_true] at hlen
          simp only [deleteSubmission, hfind2]
          omega
    | some form =>
      by_cases hp : form.status = FormStatus.published
      · have hpost : postSubmission store req now newId
            = ({ forms := store.forms.map fun f =>
                   if f.id = req.formId then { f with submissions := f.submissions + 1 }
                   else f,
                 submissions := store.submissions
                   ++ [{ id := newId, formId := req.formId, fields := req.fields,
                         submittedAt := now }] },
               SubmitResult.created
                 { id := newId, formId := req.formId, fields := req.fields,
                   submittedAt := now }) := by
          simp [postSubmission, hg, hfind, hp]
        refine ⟨fun hnone => absurd (by rw [hpost]) (hnone _), fun sub hsub => ?_, ?_, hdel, ?_⟩
        · rw [hpost] at hsub
          simp only [SubmitResult.created.injEq] at hsub
          subst hsub
          exact ⟨form, rfl, hp, rfl, by rw [hpost], by rw [hpost]⟩
        · rw [hpost]
          exact consistent_append_inc store.forms store.submissions
            ⟨newId, req.formId, req.fields, now⟩ hc
        · intro sub hfind2
          refine ⟨by simp [deleteSubmission, hfind2], ?_⟩
          have hlen := countP_eraseP_of_find (fun s => s.id = subId) (fun _ => true)
            store.submissions sub hfind2
          simp only [List.countP_true, if_true] at hlen
          simp only [deleteSubmission, hfind2]
          omega
      · have hpost : postSubmission store req now newId = (store, SubmitResult.notPublished) := by
          simp [postSubmission, hg, hfind, hp]
        refine ⟨fun _ => by rw [hpost], fun sub hsub => ?_, by rw [hpost]; exact hc, hdel, ?_⟩
        · rw [hpost] at hsub; cases hsub
        · intro sub hfind2
          refine ⟨by simp [deleteSubmission, hfind2], ?_⟩
          have hlen := countP_eraseP_of_find (fun s => s.id = subId) (fun _ => true)
            store.submissions sub hfind2
          simp only [List.countP_true, if_true] at hlen
          simp only [deleteSubmission, hfind2]
          omega
  · have hpost : postSubmission store req now newId
        = (store, SubmitResult.badRequest (gateErrors req)) := by
      simp [postSubmission, hg]
    refine ⟨fun _ => by rw [hpost], fun sub hsub => ?_, by rw [hpost]; exact hc, hdel, ?_⟩
    · rw [hpost] at hsub; cases hsub
    · intro sub hfind2
      refine ⟨by simp [deleteSubmission, hfind2], ?_⟩
      have hlen := countP_eraseP_of_find (fun s => s.id = subId) (fun _ => true)
        store.submissions sub hfind2
      simp only [List.countP_true, if_true] at hlen
      simp only [deleteSubmission, hfind2]
      omega

/-- C7 witness: the invariant statement evaluated at the consistent
scenario-4 store, its second request, and the prior submission's id. -/
theorem submissions_counter_consistent_witness :
    Consistent limitStore ∧
    Consistent (postSubmission limitStore limitReq 2 "s3").1 ∧
    Consistent (deleteSubmission limitStore "p1").1 :=
  ⟨by decide,
    (submissions_counter_consistent limitStore limitReq 2 "s3" "p1" (by decide)).2.2.1,
    (submissions_counter_consistent limitStore limitReq 2 "s3" "p1" (by decide)).2.2.2.1⟩

/-! ## Claim C8 — analytics field statistics -/

/-- Bumping key `v` leaves the key sequence unchanged when `v` is already
present and appends `v` otherwise. -/
theorem bumpKey_map_fst (v : Value) :
    ∀ acc : List (Value × Nat),
      (bumpKey acc v).map Prod.fst
        = if v ∈ acc.map Prod.fst then acc.map Prod.fst else acc.map Prod.fst ++ [v] := by
  intro acc
  induction acc with
  | nil => simp [bumpKey]
  | cons kv rest ih =>
      obtain ⟨k, c⟩ := kv
      by_cases h : k = v
      · simp [bumpKey, h]
      · have hne : ¬ v = k := fun hv => h hv.symm
        by_cases hmem : v ∈ rest.map Prod.fst
        · simp [bumpKey, h, ih, hmem, hne]
        · simp [bumpKey, h, ih, hmem, hne]

/-- Bumping preserves distinctness of the tally keys. -/
theorem nodup_bumpKey (v : Value) (acc : List (Value × Nat))
    (hnd : (acc.map Prod.fst).Nodup) : ((bumpKey acc v).map Prod.fst).Nodup := by
  rw [bumpKey_map_fst]
  by_cases hmem : v ∈ acc.map Prod.fst
  · simpa [hmem] using hnd
  · simp [hmem, List.nodup_append, hnd]

/-- Where an element of a bumped tally comes from: untouched with a
different key, the bumped entry for `v`, or a fresh `(v, 1)` entry. -/
theorem mem_bumpKey (v : Value) (p : Value × Nat) :
    ∀ acc : List (Value × Nat), (acc.map Prod.fst).Nodup → p ∈ bumpKey acc v →
      (p ∈ acc ∧ p.1 ≠ v) ∨ (∃ c, (v, c) ∈ acc ∧ p = (v, c + 1)) ∨
      (¬ v ∈ acc.map Prod.fst ∧ p = (v, 1)) := by
  intro acc
  induction acc with
  | nil =>
      intro _ hp
      simp [bumpKey] at hp
      exact Or.inr (Or.inr ⟨by simp, by simp [hp]⟩)
  | cons kv rest ih =>
      obtain ⟨k, c⟩ := kv
      intro hnd hp
      rw [List.map_cons, List.nodup_cons] at hnd
      by_cases h : k = v
      · subst h
        simp only [bumpKey, if_pos rfl] at hp
        rw [if_pos trivial, List.mem_cons] at hp
        rcases hp with hp | hp
        · exact Or.inr (Or.inl ⟨c, List.mem_cons_self _ _, hp⟩)
        · refine Or.inl ⟨List.mem_cons_of_mem _ hp, ?_⟩
          intro hpk
          have hmem : p.1 ∈ rest.map Prod.fst := List.mem_map_of_mem Prod.fst hp
          rw [hpk] at hmem
          exact hnd.1 hmem
      · simp only [bumpKey, if_neg h, List.mem_cons] at hp
        rcases hp with hp | hp
        · exact Or.inl ⟨by simp [hp], by simp [hp, h]⟩
        · rcases ih hnd.2 hp with h1 | h2 | h3
          · exact Or.inl ⟨List.mem_cons_of_mem _ h1.1, h1.2⟩
          · rcases h2 with ⟨c', hc', hpe⟩
            exact Or.inr (Or.inl ⟨c', List.mem_cons_of_mem _ hc', hpe⟩)
          · refine Or.inr (Or.inr ⟨?_, h3.2⟩)
            simp only [List.map_cons, List.mem_cons]
            rintro (hv | hv)
            · exact h hv.symm
            · exact h3.1 hv

/-- The bumped key is always among the result's keys. -/
theorem mem_fst_bumpKey_self (v : Value) (acc : List (Value × Nat)) :
    v ∈ (bumpKey acc v).map Prod.fst := by
  rw [bumpKey_map_fst]
  by_cases hmem : v ∈ acc.map Prod.fst
  · simpa [hmem] using hmem
  · simp [hmem]

/-- Bumping never removes a key. -/
theorem mem_fst_bumpKey_mono (v w : Value) (acc : List (Value × Nat))
    (hw : w ∈ acc.map Prod.fst) : w ∈ (bumpKey acc v).map Prod.fst := by
  rw [bumpKey_map_fst]
  by_cases hmem : v ∈ acc.map Prod.fst
  · simpa [hmem] using hw
  · simp [hmem, hw]

/-- Invariant of the tally fold: starting from an accumulator that is an
exact tally of the already-processed keys `done`, the fold over `keys`
yields an exact tally of `done ++ keys` with distinct tally keys. -/
theorem tally_fold_inv :
    ∀ (keys done : List Value) (acc : List (Value × Nat)),
      (acc.map Prod.fst).Nodup →
      (∀ p ∈ acc, p.2 = done.count p.1 ∧ p.1 ∈ done) →
      (∀ v ∈ done, v ∈ acc.map Prod.fst) →
      ((keys.foldl bumpKey acc).map Prod.fst).Nodup ∧
      (∀ p ∈ keys.foldl bumpKey acc, p.2 = (done ++ keys).count p.1 ∧ p.1 ∈ done ++ keys) ∧
      (∀ v ∈ done ++ keys, v ∈ (keys.foldl bumpKey acc).map Prod.fst) := by
  intro keys
  induction keys with
  | nil =>
      intro done acc hnd hcnt hcomp
      exact ⟨hnd, by simpa using hcnt, by simpa using hcomp⟩
  | cons v rest ih =>
      intro done acc hnd hcnt hcomp
      have hstep := ih (done ++ [v]) (bumpKey acc v) (nodup_bumpKey v acc hnd) ?_ ?_
      · have hassoc : done ++ v :: rest = (done ++ [v]) ++ rest := by simp
        rw [hassoc]
        simpa [List.foldl_cons] using hstep
      · intro p hp
        rcases mem_bumpKey v p acc hnd hp with h1 | h2 | h3
        · have := hcnt p h1.1
          refine ⟨?_, List.mem_append_left _ this.2⟩
          rw [List.count_append, this.1]
          have : [v].count p.1 = 0 := List.count_eq_zero_of_not_mem (by simp [h1.2])
          omega
        · rcases h2 with ⟨c, hvc, hpe⟩
          have hdone := hcnt (v, c) hvc
          simp only at hdone
          obtain ⟨hd1, _⟩ := hdone
          subst hpe
          refine ⟨?_, List.mem_append_right _ (by simp)⟩
          show c + 1 = (done ++ [v]).count v
          have hcv : ([v].count v) = 1 := by simp
          rw [List.count_append, hcv]
          omega
        · obtain ⟨hnotin, rfl⟩ := h3
          have hvnot : v ∉ done := fun hv => hnotin (hcomp v hv)
          refine ⟨?_, List.mem_append_right _ (by simp)⟩
          rw [List.count_append, List.count_eq_zero_of_not_mem hvnot]
          simp
      · intro w hw
        rcases List.mem_append.mp hw with hw | hw
        · exact mem_fst_bumpKey_mono v w acc (hcomp w hw)
        · have : w = v := by simpa using hw
          subst this
          exact mem_fst_bumpKey_self w acc

/-- Every tally entry carries the exact multiplicity of its key. -/
theorem mem_tally (keys : List Value) (p : Value × Nat) (hp : p ∈ tally keys) :
    p.2 = keys.count p.1 ∧ p.1 ∈ keys := by
  have := (tally_fold_inv keys [] [] (by simp) (by simp) (by simp)).2.1 p hp
  simpa using this

/-- Every key appearing in the input appears in its tally. -/
theorem mem_fst_tally (keys : List Value) (k : Value) (hk : k ∈ keys) :
    k ∈ (tally keys).map Prod.fst := by
  have := (tally_fold_inv keys [] [] (by simp) (by simp) (by simp)).2.2 k (by simpa using hk)
  exact this

/-- Stable descending insertion permutes to a cons. -/
theorem insertByCount_perm (x : Value × Nat) (l : List (Value × Nat)) :
    List.Perm (insertByCount x l) (x :: l) := by
  induction l with
  | nil => simp [insertByCount]
  | cons y rest ih =>
      by_cases h : y.2 < x.2
      · simp [insertByCount, h]
      · simp only [insertByCount, if_neg h]
        exact (ih.cons y).trans (List.Perm.swap x y rest)

/-- The stable descending sort is a permutation of its input. -/
theorem sortByCountDesc_perm (l : List (Value × Nat)) :
    List.Perm (sortByCountDesc l) l := by
  have hgen : ∀ (l acc : List (Value × Nat)),
      List.Perm (l.foldl (fun a x => insertByCount x a) acc) (l ++ acc) := by
    intro l
    induction l with
    | nil => intro acc; simp
    | cons x rest ih =>
        intro acc
        have h1 := ih (insertByCount x acc)
        have h2 : List.Perm (rest ++ insertByCount x acc) (rest ++ x :: acc) :=
          List.Perm.append_left rest (insertByCount_perm x acc)
        have h3 : List.Perm (rest ++ x :: acc) (x :: (rest ++ acc)) := List.perm_middle
        simpa using (h1.trans h2).trans h3
  simpa using hgen l []

/-- Insertion preserves the descending-count ordering. -/
theorem pairwise_insertByCount (x : Value × Nat) (l : List (Value × Nat))
    (h : List.Pairwise (fun a b : Value × Nat => b.2 ≤ a.2) l) :
    List.Pairwise (fun a b : Value × Nat => b.2 ≤ a.2) (insertByCount x l) := by
  induction l with
  | nil => simp [insertByCount]
  | cons y rest ih =>
      rw [List.pairwise_cons] at h
      by_cases hlt : y.2 < x.2
      · rw [insertByCount, if_pos hlt, List.pairwise_cons]
        refine ⟨?_, List.pairwise_cons.mpr h⟩
        intro b hb
        rcases List.mem_cons.mp hb with hb | hb
        · exact hb ▸ Nat.le_of_lt hlt
        · exact Nat.le_trans (h.1 b hb) (Nat.le_of_lt hlt)
      · rw [insertByCount, if_neg hlt, List.pairwise_cons]
        refine ⟨?_, ih h.2⟩
        intro b hb
        rcases List.mem_cons.mp ((insertByCount_perm x rest).mem_iff.mp hb) with hb | hb
        · exact hb ▸ Nat.le_of_not_lt hlt
        · exact h.1 b hb

/-- The stable descending sort is descending in the counts. -/
theorem pairwise_sortByCountDesc (l : List (Value × Nat)) :
    List.Pairwise (fun a b : Value × Nat => b.2 ≤ a.2) (sortByCountDesc l) := by
  have hgen : ∀ (l acc : List (Value × Nat)),
      List.Pairwise (fun a b : Value × Nat => b.2 ≤ a.2) acc →
      List.Pairwise (fun a b : Value × Nat => b.2 ≤ a.2)
        (l.foldl (fun a x => insertByCount x a) acc) := by
    intro l
    induction l with
    | nil => intro acc hacc; simpa using hacc
    | cons x rest ih =>
        intro acc hacc
        exact ih (insertByCount x acc) (pairwise_insertByCount x acc hacc)
  exact hgen l [] (by simp)

/-- C8 counterexample: one period submission carrying two entries for
field `f1` (a request shape the ingestion gate accepts and persists
verbatim) yields `responseCount = 2` for `f1`, although only one period
submission included a non-empty value for that field — the aggregator
counts matching entries, not submissions with a non-empty value. -/
theorem field_stats_response_count_cex :
    (postSubmission statStore statReq 5 "s9").2 = SubmitResult.created statSub ∧
    (fieldStatsFor statForm [statSub]).map FieldStat.responseCount = [2] ∧
    (([statSub] : List Submission).filter fun sub =>
      sub.fields.any fun e => entryMatches "f1" e && e.value.truthy).length = 1 := by
  decide

/-- C8 (amended): the `fieldStats` array has one entry per form field, in
field order; its `responseCount` is the total number of submission
entries across the period whose `fieldId` matches the field — entries
with empty values count, and several entries in one submission count
separately; `responseRate` is `responseCount / form.submissions × 100`
against the lifetime counter (0 when the counter is not positive); and
`topValues` is a top-5 of the truthy values (arrays flattened to a
`", "`-joined string): at most five entries, counts descending, each
entry carrying the exact multiplicity of its key among the tallied
values, and no tallied key outside it occurring more often than any entry
in it. -/
theorem field_stats_characterization (form : Form) (subs : List Submission)
    (i : Nat) (hi : i < form.fields.length) :
    (fieldStatsFor form subs).length = form.fields.length ∧
    ∀ hj : i < (fieldStatsFor form subs).length,
      ((fieldStatsFor form subs).get ⟨i, hj⟩).fieldId = (form.fields.get ⟨i, hi⟩).id ∧
      ((fieldStatsFor form subs).get ⟨i, hj⟩).label = (form.fields.get ⟨i, hi⟩).label ∧
      ((fieldStatsFor form subs).get ⟨i, hj⟩).responseCount
        = (subs.map fun sub =>
            sub.fields.countP (entryMatches (form.fields.get ⟨i, hi⟩).id)).sum ∧
      ((fieldStatsFor form subs).get ⟨i, hj⟩).responseRate
        = (if 0 < form.submissions
           then (((fieldStatsFor form subs).get ⟨i, hj⟩).responseCount : ℚ) * 100
             / (form.submissions : ℚ)
           else 0) ∧
      ((fieldStatsFor form subs).get ⟨i, hj⟩).topValues.length ≤ 5 ∧
      List.Pairwise (fun a b : Value × Nat => b.2 ≤ a.2)
        ((fieldStatsFor form subs).get ⟨i, hj⟩).topValues ∧
      (∀ p ∈ ((fieldStatsFor form subs).get ⟨i, hj⟩).topValues,
        p.2 = (fieldValueKeys (form.fields.get ⟨i, hi⟩).id subs).count p.1 ∧
        p.1 ∈ fieldValueKeys (form.fields.get ⟨i, hi⟩).id subs) ∧
      (∀ k ∈ fieldValueKeys (form.fields.get ⟨i, hi⟩).id subs,
        k ∉ ((fieldStatsFor form subs).get ⟨i, hj⟩).topValues.map Prod.fst →
        ∀ p ∈ ((fieldStatsFor form subs).get ⟨i, hj⟩).topValues,
          (fieldValueKeys (form.fields.get ⟨i, hi⟩).id subs).count k ≤ p.2) := by
  refine ⟨by simp [fieldStatsFor], fun hj => ?_⟩
  have hstat : (fieldStatsFor form subs).get ⟨i, hj⟩
      = { fieldId := (form.fields.get ⟨i, hi⟩).id
          label := (form.fields.get ⟨i, hi⟩).label
          type := (form.fields.get ⟨i, hi⟩).type
          responseCount := (fieldEntries (form.fields.get ⟨i, hi⟩).id subs).length
          responseRate :=
            if 0 < form.submissions then
              ((fieldEntries (form.fields.get ⟨i, hi⟩).id subs).length : ℚ)
                / (form.submissions : ℚ) * 100
            else 0
          topValues :=
            (sortByCountDesc
              (tally (fieldValueKeys (form.fields.get ⟨i, hi⟩).id subs))).take 5 } := by
    unfold fieldStatsFor
    exact List.getElem_map _
  refine ⟨by rw [hstat], by rw [hstat], ?_, ?_, ?_, ?_, ?_, ?_⟩
  · rw [hstat]
    show (fieldEntries (form.fields.get ⟨i, hi⟩).id subs).length = _
    unfold fieldEntries
    rw [List.length_flatMap]
    simp only [List.countP_eq_length_filter]
    rfl
  · rw [hstat]
    by_cases h : 0 < form.submissions
    · simp only [if_pos h]
      exact div_mul_eq_mul_div _ _ _
    · simp only [if_neg h]
  · rw [hstat]
    exact List.length_take_le _ _
  · rw [hstat]
    exact (pairwise_sortByCountDesc _).sublist (List.take_sublist _ _)
  · intro p hp
    rw [hstat] at hp
    have hsorted : p ∈ sortByCountDesc
        (tally (fieldValueKeys (form.fields.get ⟨i, hi⟩).id subs)) :=
      List.mem_of_mem_take hp
    have htal : p ∈ tally (fieldValueKeys (form.fields.get ⟨i, hi⟩).id subs) :=
      (sortByCountDesc_perm _).mem_iff.mp hsorted
    exact mem_tally _ p htal
  · intro k hk hknot p hp
    rw [hstat] at hknot hp
    have hktal : k ∈ (tally (fieldValueKeys (form.fields.get ⟨i, hi⟩).id subs)).map
        Prod.fst := mem_fst_tally _ k hk
    rcases List.mem_map.mp hktal with ⟨q, hq, hqk⟩
    have hqcount := (mem_tally _ q hq).1
    have hqsorted : q ∈ sortByCountDesc
        (tally (fieldValueKeys (form.fields.get ⟨i, hi⟩).id subs)) :=
      (sortByCountDesc_perm _).mem_iff.mpr hq
    have hqsplit : q ∈ (sortByCountDesc
          (tally (fieldValueKeys (form.fields.get ⟨i, hi⟩).id subs))).take 5
        ++ (sortByCountDesc
          (tally (fieldValueKeys (form.fields.get ⟨i, hi⟩).id subs))).drop 5 := by
      rw [List.take_append_drop]
      exact hqsorted
    rcases List.mem_append.mp hqsplit with hq5 | hq5
    · exact absurd (hqk ▸ List.mem_map_of_mem Prod.fst hq5) hknot
    · have hpw := pairwise_sortByCountDesc
        (tally (fieldValueKeys (form.fields.get ⟨i, hi⟩).id subs))
      rw [← List.take_append_drop 5 (sortByCountDesc
        (tally (fieldValueKeys (form.fields.get ⟨i, hi⟩).id subs)))] at hpw
      have hrel := (List.pairwise_append.mp hpw).2.2 p hp q hq5
      rw [hqcount, hqk] at hrel
      exact hrel

/-- C8 witness: the characterization applied at the concrete stats form
and its double-entry period submission. -/
theorem field_stats_characterization_witness :
    (0 < statForm.fields.length ∧ 0 < (fieldStatsFor statForm [statSub]).length) ∧
    (fieldStatsFor statForm [statSub]).length = statForm.fields.length ∧
    ((fieldStatsFor statForm [statSub]).get ⟨0, by decide⟩).responseCount
      = (([statSub] : List Submission).map fun sub =>
          sub.fields.countP (entryMatches (statForm.fields.get ⟨0, by decide⟩).id)).sum :=
  ⟨⟨by decide, by decide⟩,
    (field_stats_characterization statForm [statSub] 0 (by decide)).1,
    ((field_stats_characterization statForm [statSub] 0 (by decide)).2 (by decide)).2.2.1⟩

end FormBuilder
